import Mathlib

/-!
Verification of the did:key identifier codec of go-sonr/crypto
(src/keys/parsers/key_parser.go).

The development is a shallow embedding of the Go source.  Go byte slices
are modelled as List Nat (each element < 256), Go strings as List Char,
fallible functions as Option / Except.  The external collaborators that
the spec declares out of scope (the libp2p crypto.PubKey capability, the
x509 DER parser, the foreign multibase decoders) are modelled at the
contract level the spec gives for them; each such definition carries a
doc comment saying so.  Everything else is translated directly from the
source file.
-/

deriving instance DecidableEq for Except

namespace Parsers

/-- Modelled from the spec: the algorithm classification reported by the
external public-key capability (libp2p crypto.KeyType).  The spec's closed
set is Ed25519, RSA, Secp256k1; ECDSA stands for any other classification
the external library can report (the default branches of the source). -/
inductive KeyType where
  | RSA
  | Ed25519
  | Secp256k1
  | ECDSA
  deriving DecidableEq

/-- Modelled from the spec: the external public-key object
(libp2p crypto.PubKey).  The core consumes only its algorithm
classification (Type) and raw byte serialization (Raw); Raw is fallible
at the interface, which rawErr models. -/
structure PubKey where
  type : KeyType
  raw : List Nat
  rawErr : Bool
  deriving DecidableEq

/-- Modelled from the spec: the external validation steps the core
delegates: rsaValid is the x509 ParsePKIXPublicKey + RSA type assertion
on DER SubjectPublicKeyInfo bytes (spec 4.4, out of scope); otherBase is
the go-multibase decoder for every selector other than the base-58-BTC
selector (returning the decoded bytes, or none when the selector is
unknown or its payload invalid).  Both are kept as parameters because the
spec treats their internals as external collaborators. -/
structure Externals where
  rsaValid : List Nat → Bool
  otherBase : Char → List Char → Option (List Nat)

/-- Modelled from the spec: the per-algorithm shape rule of section 3
(Ed25519: native 32-byte public key; RSA: DER SubjectPublicKeyInfo,
i.e. exactly what the external parser accepts; Secp256k1: 33 or 65
bytes).  No rule is given for other algorithms. -/
def shapeOK (E : Externals) : KeyType → List Nat → Bool
  | .Ed25519, raw => raw.length == 32
  | .RSA, raw => E.rsaValid raw
  | .Secp256k1, raw => raw.length == 33 || raw.length == 65
  | .ECDSA, _ => false

/-- The fallible raw serialization of the external key object
(crypto.PubKey Raw method). -/
def PubKey.Raw (k : PubKey) : Except Unit (List Nat) :=
  if k.rawErr then .error () else .ok k.raw

-- Constants of key_parser.go.

/-- KeyPrefix indicates a decentralized identifier that uses the key
method ("did:key"). -/
def KeyPrefix : List Char := ['d', 'i', 'd', ':', 'k', 'e', 'y']

/-- MulticodecKindRSAPubKey rsa-x509-pub. -/
def MulticodecKindRSAPubKey : Nat := 0x1205

/-- MulticodecKindEd25519PubKey ed25519-pub. -/
def MulticodecKindEd25519PubKey : Nat := 0xed

/-- MulticodecKindSecp256k1PubKey secp256k1-pub. -/
def MulticodecKindSecp256k1PubKey : Nat := 0x1206

-- The varint codec (multiformats/go-varint, as called by the source).

/-- Fuel-indexed worker for PutUvarint; the fuel only bounds recursion
depth (x / 128 decreases, so fuel := x suffices) and never alters the
result reached with enough fuel. -/
def putUvarintAux : Nat → Nat → List Nat
  | 0, x => [x % 128]
  | fuel + 1, x =>
    if x < 128 then [x]
    else (x % 128 + 128) :: putUvarintAux fuel (x / 128)

/-- binary.PutUvarint as used by varint.PutUvarint: emit 7 bits per byte,
low group first, continuation bit 0x80 on every byte but the last.
(byte(x) | 0x80 on the low 7 bits equals x % 128 + 128.) -/
def PutUvarint (x : Nat) : List Nat :=
  putUvarintAux x x

/-- The error results of varint.FromUvarint. -/
inductive VarintErr where
  | underflow
  | overflow
  | notMinimal
  deriving DecidableEq

/-- Loop body of varint.FromUvarint: buf is the unread bytes, x the
accumulated value, s the current shift, i the byte index.  Since every
7-bit group lands in a fresh bit range, the source's x | b<<s equals
x + b * 2 ^ s, and b & 0x7f equals b % 128; the i = 8 / i ≥ 9 guards
reject varints beyond 63 bits exactly as the source does. -/
def fromUvarintAux : List Nat → Nat → Nat → Nat → Except VarintErr (Nat × Nat)
  | [], _, _, _ => .error .underflow
  | b :: bs, x, s, i =>
    if (i = 8 ∧ 128 ≤ b) ∨ 9 ≤ i then .error .overflow
    else if b < 128 then
      if b = 0 ∧ 0 < s then .error .notMinimal
      else .ok (x + b * 2 ^ s, i + 1)
    else fromUvarintAux bs (x + b % 128 * 2 ^ s) (s + 7) (i + 1)

/-- varint.FromUvarint: read one unsigned varint from the front of buf,
returning the value and the number of bytes read. -/
def FromUvarint (buf : List Nat) : Except VarintErr (Nat × Nat) :=
  fromUvarintAux buf 0 0 0

-- The base-58-BTC codec (mr-tron/base58, behind go-multibase).

/-- The Bitcoin base-58 alphabet. -/
def b58Alphabet : List Char :=
  ['1', '2', '3', '4', '5', '6', '7', '8', '9',
   'A', 'B', 'C', 'D', 'E', 'F', 'G', 'H', 'J', 'K', 'L', 'M', 'N',
   'P', 'Q', 'R', 'S', 'T', 'U', 'V', 'W', 'X', 'Y', 'Z',
   'a', 'b', 'c', 'd', 'e', 'f', 'g', 'h', 'i', 'j', 'k', 'm', 'n',
   'o', 'p', 'q', 'r', 's', 't', 'u', 'v', 'w', 'x', 'y', 'z']

/-- The digit character for a base-58 digit value. -/
def b58Char (d : Nat) : Char :=
  b58Alphabet.getD d '1'

/-- The digit value of a base-58 character; characters outside the
alphabet yield 58 (the alphabet length), which every caller filters. -/
def b58Idx (c : Char) : Nat :=
  b58Alphabet.indexOf c

/-- Number of leading occurrences of a at the front of a list. -/
def countLeading [DecidableEq α] (a : α) : List α → Nat
  | [] => 0
  | x :: xs => if x = a then countLeading a xs + 1 else 0

/-- Value of a little-endian digit list in base B. -/
def leVal (B : Nat) : List Nat → Nat
  | [] => 0
  | d :: ds => d + B * leVal B ds

/-- Value of a big-endian digit list in base B. -/
def beVal (B : Nat) (l : List Nat) : Nat :=
  leVal B l.reverse

/-- Fuel-indexed little-endian base-B digit expansion; fuel := n is
always enough because n / B decreases. -/
def digitsAuxF (B : Nat) : Nat → Nat → List Nat
  | _, 0 => []
  | 0, _ + 1 => []
  | fuel + 1, n + 1 => (n + 1) % B :: digitsAuxF B fuel ((n + 1) / B)

/-- Little-endian base-B digits of n (empty for 0), as a structurally
recursive function. -/
def natDigitsF (B n : Nat) : List Nat :=
  digitsAuxF B n n

/-- mr-tron base-58 encoding: one alphabet-zero character per leading
zero byte, then the big-endian base-58 digits of the big-integer value
of the input. -/
def b58Encode (bin : List Nat) : List Char :=
  List.replicate (countLeading 0 bin) '1' ++
    ((natDigitsF 58 (beVal 256 bin)).reverse.map b58Char)

/-- mr-tron base-58 decoding: rejects the empty string and any character
outside the alphabet; otherwise one zero byte per leading alphabet-zero
character, then the big-endian bytes of the big-integer value of all the
digits. -/
def b58Decode (s : List Char) : Option (List Nat) :=
  if s = [] then none
  else if s.all (fun c => decide (b58Idx c < 58)) then
    some (List.replicate (countLeading '1' s) 0 ++
      (natDigitsF 256 (beVal 58 (s.map b58Idx))).reverse)
  else none

-- The multibase layer (go-multibase, as called by the source).

/-- go-multibase Encode with the Base58BTC encoding: the selector
character followed by the base-58 text.  (For this encoding the source's
error branch of mb.Encode is unreachable: the encoding is supported.) -/
def mbEncode (data : List Nat) : List Char :=
  'z' :: b58Encode data

/-- go-multibase Decode: the first character selects the encoding (the
returned encoding code is that character's code point, 122 for
base-58-BTC); the remainder is decoded in that base.  Decoders other
than base-58-BTC are the external parameter other; none covers both an
unknown selector and an invalid payload, each of which makes mb.Decode
return an error. -/
def mbDecode (other : Char → List Char → Option (List Nat)) :
    List Char → Option (Nat × List Nat)
  | [] => none
  | c :: rest =>
    if c = 'z' then (b58Decode rest).map (fun bs => (c.toNat, bs))
    else (other c rest).map (fun bs => (c.toNat, bs))

-- External key constructors used by Parse (libp2p crypto package).

/-- Modelled from the spec: crypto.UnmarshalEd25519PublicKey of the
external library; it accepts exactly the native 32-byte public key
(the library rejects any other size). -/
def UnmarshalEd25519PublicKey (data : List Nat) : Except Unit PubKey :=
  if data.length = 32 then .ok ⟨.Ed25519, data, false⟩ else .error ()

/-- Modelled from the spec: crypto.UnmarshalRsaPublicKey of the external
library; it accepts exactly the DER SubjectPublicKeyInfo bytes that the
external x509 parser accepts (the rsaValid parameter), and the resulting
key serializes back to those bytes. -/
def UnmarshalRsaPublicKey (rsaValid : List Nat → Bool) (data : List Nat) :
    Except Unit PubKey :=
  if rsaValid data then .ok ⟨.RSA, data, false⟩ else .error ()

/-- Modelled from the spec: crypto.UnmarshalSecp256k1PublicKey of the
external library.  Point-on-curve validation is declared out of scope by
the spec (section 4.4), so the model keeps the bytes as given; the
length gate of the source runs before this call. -/
def UnmarshalSecp256k1PublicKey (data : List Nat) : Except Unit PubKey :=
  .ok ⟨.Secp256k1, data, false⟩

-- The DIDKey type and its operations (key_parser.go).

/-- DIDKey is a DID:key identifier; it embeds the external public key. -/
structure DIDKey where
  pubKey : PubKey
  deriving DecidableEq

/-- The decode/encode/projection error taxonomy of the source, one
constructor per distinct error branch of key_parser.go. -/
inductive KeyErr where
  | badPrefix
  | multibaseDecodeErr
  | unsupportedMultibase
  | varintErr (e : VarintErr)
  | invalidRsaKey
  | invalidEd25519Key
  | invalidSecp256k1KeyLength
  | invalidSecp256k1Unmarshal
  | unsupportedAlgorithm
  | unsupportedKeyType
  | rawFailure
  | unrecognizedKeyType
  deriving DecidableEq

/-- NewKeyDID constructs an Identifier from a public key. -/
def NewKeyDID (pub : PubKey) : Except KeyErr DIDKey :=
  match pub.type with
  | .Ed25519 => .ok ⟨pub⟩
  | .RSA => .ok ⟨pub⟩
  | .Secp256k1 => .ok ⟨pub⟩
  | .ECDSA => .error .unsupportedKeyType

/-- MulticodecType indicates the type for this multicodec; none models
the panic of the default branch. -/
def DIDKey.MulticodecType (id : DIDKey) : Option Nat :=
  match id.pubKey.type with
  | .RSA => some MulticodecKindRSAPubKey
  | .Ed25519 => some MulticodecKindEd25519PubKey
  | .Secp256k1 => some MulticodecKindSecp256k1PubKey
  | .ECDSA => none

/-- String returns this did:key formatted as a string: the key prefix,
a colon, and the multibase encoding of varint(tag) followed by the raw
bytes.  An error from Raw yields the empty string; none models the panic
of MulticodecType on an unexpected type. -/
def DIDKey.String (id : DIDKey) : Option (List Char) :=
  match PubKey.Raw id.pubKey with
  | .error _ => some []
  | .ok raw =>
    match DIDKey.MulticodecType id with
    | none => none
    | some t => some (KeyPrefix ++ ':' :: mbEncode (PutUvarint t ++ raw))

/-- The structured verification-key results of VerifyKey: an RSA public
key parsed from SPKI bytes (modelled by those bytes), an ed25519 public
key (exactly the raw bytes), or the raw Secp256k1 bytes. -/
inductive VerifyKeyValue where
  | rsaPublicKey (spki : List Nat)
  | ed25519PublicKey (raw : List Nat)
  | secpRawBytes (raw : List Nat)
  deriving DecidableEq

/-- VerifyKey returns the backing implementation for a public key: RSA
bytes are run through the external x509 parser with an RSA type check;
Ed25519 raw bytes are returned directly as the public key; Secp256k1
bytes are returned directly after the 65-or-33-byte length check. -/
def DIDKey.VerifyKey (E : Externals) (id : DIDKey) :
    Except KeyErr VerifyKeyValue :=
  match PubKey.Raw id.pubKey with
  | .error _ => .error .rawFailure
  | .ok rawPubBytes =>
    match id.pubKey.type with
    | .RSA =>
      if E.rsaValid rawPubBytes then .ok (.rsaPublicKey rawPubBytes)
      else .error .invalidRsaKey
    | .Ed25519 => .ok (.ed25519PublicKey rawPubBytes)
    | .Secp256k1 =>
      if rawPubBytes.length = 65 ∨ rawPubBytes.length = 33 then
        .ok (.secpRawBytes rawPubBytes)
      else .error .invalidSecp256k1KeyLength
    | .ECDSA => .error .unrecognizedKeyType

/-- strings.TrimPrefix: drop p from the front of s when it is a prefix,
otherwise return s unchanged. -/
def TrimPrefix (s p : List Char) : List Char :=
  if p.isPrefixOf s then s.drop p.length else s

/-- The envelope stage of Parse: read the varint tag from the decoded
bytes and dispatch on it, unmarshalling the remainder with the
algorithm's constructor; the Secp256k1 arm checks the 33-or-65-byte
length before unmarshalling.  This is the tail of the source's Parse
after the multibase stage, split out verbatim. -/
def parseEnvelope (E : Externals) (data : List Nat) : Except KeyErr DIDKey :=
  match FromUvarint data with
  | .error e => .error (.varintErr e)
  | .ok (keyType, n) =>
    if keyType = MulticodecKindRSAPubKey then
      match UnmarshalRsaPublicKey E.rsaValid (data.drop n) with
      | .error _ => .error .invalidRsaKey
      | .ok pub => .ok ⟨pub⟩
    else if keyType = MulticodecKindEd25519PubKey then
      match UnmarshalEd25519PublicKey (data.drop n) with
      | .error _ => .error .invalidEd25519Key
      | .ok pub => .ok ⟨pub⟩
    else if keyType = MulticodecKindSecp256k1PubKey then
      if (data.drop n).length ≠ 33 ∧ (data.drop n).length ≠ 65 then
        .error .invalidSecp256k1KeyLength
      else
        match UnmarshalSecp256k1PublicKey (data.drop n) with
        | .error _ => .error .invalidSecp256k1Unmarshal
        | .ok pub => .ok ⟨pub⟩
    else .error .unsupportedAlgorithm

/-- Parse turns a string into a key method ID: it requires the did:key
prefix, strips the prefix and a following colon when present, decodes
the multibase text, requires the base-58-BTC encoding, and hands the
decoded envelope to the varint/tag stage. -/
def Parse (E : Externals) (keystr : List Char) : Except KeyErr DIDKey :=
  if !(KeyPrefix.isPrefixOf keystr) then .error .badPrefix
  else
    match mbDecode E.otherBase (TrimPrefix keystr (KeyPrefix ++ [':'])) with
    | none => .error .multibaseDecodeErr
    | some (enc, data) =>
      if enc ≠ 122 then .error .unsupportedMultibase
      else parseEnvelope E data

-- Concrete instances of the external parameters, used for witnesses.

/-- hex.DecodeString character values: 0-9, a-f, A-F. -/
def hexVal (c : Char) : Option Nat :=
  if '0' ≤ c ∧ c ≤ '9' then some (c.toNat - '0'.toNat)
  else if 'a' ≤ c ∧ c ≤ 'f' then some (c.toNat - 'a'.toNat + 10)
  else if 'A' ≤ c ∧ c ≤ 'F' then some (c.toNat - 'A'.toNat + 10)
  else none

/-- hex.DecodeString: pairs of hex characters; odd length or a non-hex
character is an error. -/
def hexDecode : List Char → Option (List Nat)
  | [] => some []
  | [_] => none
  | a :: b :: rest =>
    match hexVal a, hexVal b, hexDecode rest with
    | some hi, some lo, some tl => some ((16 * hi + lo) :: tl)
    | _, _, _ => none

/-- An Externals instance accepting every RSA byte string and knowing no
foreign multibase decoder. -/
def extDefault : Externals :=
  ⟨fun _ => true, fun _ _ => none⟩

/-- An Externals instance whose foreign multibase table carries the
base-16 decoder under its selector, as go-multibase does. -/
def extHex : Externals :=
  ⟨fun _ => true, fun c rest => if c = 'f' then hexDecode rest else none⟩

-- Helper lemmas: prefixes.

theorem isPrefixOf_append (l r : List Char) : l.isPrefixOf (l ++ r) = true := by
  induction l with
  | nil => simp [List.isPrefixOf]
  | cons a as ih => simp [List.isPrefixOf, ih]

theorem TrimPrefix_append (p r : List Char) : TrimPrefix (p ++ r) p = r := by
  unfold TrimPrefix
  rw [isPrefixOf_append]
  simp

-- Helper lemmas: countLeading.

theorem countLeading_replicate_append [DecidableEq α] (a : α) (k : Nat) (r : List α)
    (h : ∀ x, r.head? = some x → x ≠ a) :
    countLeading a (List.replicate k a ++ r) = k := by
  induction k with
  | zero =>
    simp only [List.replicate, List.nil_append]
    cases r with
    | nil => rfl
    | cons x xs =>
      have hx : x ≠ a := h x rfl
      simp [countLeading, hx]
  | succ k ih => simp [List.replicate, countLeading, ih]

theorem replicate_countLeading_append_drop [DecidableEq α] (a : α) (l : List α) :
    List.replicate (countLeading a l) a ++ l.drop (countLeading a l) = l := by
  induction l with
  | nil => rfl
  | cons x xs ih =>
    by_cases hx : x = a
    · subst hx
      simp [countLeading, List.replicate, ih]
    · simp [countLeading, hx]

theorem head?_drop_countLeading [DecidableEq α] (a : α) (l : List α) (x : α)
    (h : (l.drop (countLeading a l)).head? = some x) : x ≠ a := by
  induction l with
  | nil => simp at h
  | cons y ys ih =>
    by_cases hy : y = a
    · subst hy
      simp only [countLeading, if_pos rfl, List.drop_succ_cons] at h
      exact ih h
    · simp only [countLeading, if_neg hy, List.drop_zero, List.head?_cons,
        Option.some_inj] at h
      exact h ▸ hy

-- Helper lemmas: leVal and digit expansions.

theorem leVal_eq_ofDigits (B : Nat) (l : List Nat) : leVal B l = Nat.ofDigits B l := by
  induction l with
  | nil => rfl
  | cons d ds ih => simp [leVal, Nat.ofDigits_cons, ih]

theorem leVal_replicate_zero (B k : Nat) : leVal B (List.replicate k 0) = 0 := by
  induction k with
  | zero => rfl
  | succ k ih => simp [List.replicate, leVal, ih]

theorem leVal_append_zeros (B : Nat) (l : List Nat) (k : Nat) :
    leVal B (l ++ List.replicate k 0) = leVal B l := by
  induction l with
  | nil => simp [leVal, leVal_replicate_zero]
  | cons d ds ih => simp [leVal, ih]

theorem digitsAuxF_zero (B fuel : Nat) : digitsAuxF B fuel 0 = [] := by
  cases fuel <;> simp [digitsAuxF]

theorem natDigitsF_zero (B : Nat) : natDigitsF B 0 = [] :=
  digitsAuxF_zero B 0

theorem digitsAuxF_eq (B : Nat) (hB : 2 ≤ B) :
    ∀ fuel n, n ≤ fuel → digitsAuxF B fuel n = Nat.digits B n := by
  intro fuel
  induction fuel with
  | zero =>
    intro n hn
    interval_cases n
    rw [digitsAuxF_zero, Nat.digits_zero]
  | succ fuel ih =>
    intro n hn
    match n with
    | 0 => rw [digitsAuxF_zero, Nat.digits_zero]
    | m + 1 =>
      have hd : (m + 1) / B ≤ fuel := by
        have hlt : (m + 1) / B < m + 1 :=
          Nat.div_lt_self (by omega) (by omega)
        omega
      rw [digitsAuxF, ih _ hd, Nat.digits_def' (by omega : 1 < B) (Nat.succ_pos m)]

theorem natDigitsF_eq (B n : Nat) (hB : 2 ≤ B) : natDigitsF B n = Nat.digits B n :=
  digitsAuxF_eq B hB n n (Nat.le_refl n)

-- Helper lemmas: the base-58 alphabet.

theorem b58Idx_b58Char : ∀ d, d < 58 → b58Idx (b58Char d) = d := by decide

theorem b58Idx_one : b58Idx '1' = 0 := rfl

theorem b58Char_ne_one : ∀ d, d < 58 → d ≠ 0 → b58Char d ≠ '1' := by decide

-- Helper lemmas: PutUvarint output bytes.

theorem putUvarintAux_lt (fuel : Nat) : ∀ x b, b ∈ putUvarintAux fuel x → b < 256 := by
  induction fuel with
  | zero =>
    intro x b hb
    simp only [putUvarintAux, List.mem_singleton] at hb
    have := Nat.mod_lt x (show 0 < 128 by norm_num)
    omega
  | succ fuel ih =>
    intro x b hb
    by_cases hx : x < 128
    · simp only [putUvarintAux, if_pos hx, List.mem_singleton] at hb
      omega
    · simp only [putUvarintAux, if_neg hx, List.mem_cons] at hb
      rcases hb with hb | hb
      · have := Nat.mod_lt x (show 0 < 128 by norm_num)
        omega
      · exact ih _ _ hb

theorem PutUvarint_lt (x b : Nat) (hb : b ∈ PutUvarint x) : b < 256 :=
  putUvarintAux_lt x x b hb

theorem PutUvarint_ne_nil (x : Nat) : PutUvarint x ≠ [] := by
  unfold PutUvarint
  cases hf : x with
  | zero => simp [putUvarintAux]
  | succ m =>
    simp only [putUvarintAux]
    split <;> simp

-- The base-58 round trip.

theorem b58_decode_encode (bin : List Nat) (hb : ∀ b ∈ bin, b < 256) (hne : bin ≠ []) :
    b58Decode (b58Encode bin) = some bin := by
  have h58 : (2 : Nat) ≤ 58 := by norm_num
  have h256 : (2 : Nat) ≤ 256 := by norm_num
  set z := countLeading 0 bin with hz
  have hsplit : List.replicate z 0 ++ bin.drop z = bin :=
    replicate_countLeading_append_drop 0 bin
  have hN : beVal 256 bin = leVal 256 (bin.drop z).reverse := by
    conv_lhs => rw [← hsplit]
    unfold beVal
    rw [List.reverse_append, List.reverse_replicate, leVal_append_zeros]
  cases htl : bin.drop z with
  | nil =>
    have hz0 : z ≠ 0 := by
      intro h0
      rw [h0, List.drop_zero] at htl
      exact hne htl
    have hNv : beVal 256 bin = 0 := by rw [hN, htl]; rfl
    have henc : b58Encode bin = List.replicate z '1' := by
      unfold b58Encode
      rw [hNv, ← hz, natDigitsF_zero]
      simp
    rw [henc]
    unfold b58Decode
    rw [if_neg (by simp [hz0]), if_pos]
    · have hcl : countLeading '1' (List.replicate z '1') = z := by
        have := countLeading_replicate_append '1' z ([] : List Char) (by simp)
        simpa using this
      rw [hcl, List.map_replicate, b58Idx_one]
      have : beVal 58 (List.replicate z 0) = 0 := by
        unfold beVal
        rw [List.reverse_replicate, leVal_replicate_zero]
      rw [this, natDigitsF_zero]
      simp only [List.reverse_nil, List.append_nil, Option.some_inj]
      conv_rhs => rw [← hsplit, htl]
      simp
    · rw [List.all_eq_true]
      intro c hc
      rw [List.eq_of_mem_replicate hc]
      decide
  | cons h t =>
    have hh : h ≠ 0 := by
      apply head?_drop_countLeading 0 bin
      rw [htl]
      rfl
    have hmem : ∀ d ∈ (h :: t : List Nat), d < 256 := by
      intro d hd
      apply hb
      rw [← hsplit, htl]
      exact List.mem_append_right _ hd
    have hrevne : ((h :: t : List Nat)).reverse ≠ [] := by simp
    have hlast : ∀ hx : ((h :: t : List Nat)).reverse ≠ [],
        ((h :: t : List Nat)).reverse.getLast hx ≠ 0 := by
      intro hx
      have h1 : ((h :: t : List Nat)).reverse.getLast? =
          some (((h :: t : List Nat)).reverse.getLast hx) :=
        List.getLast?_eq_getLast _ hx
      rw [List.getLast?_reverse] at h1
      simp only [List.head?_cons, Option.some_inj] at h1
      rw [← h1]
      exact hh
    have hdig256 : Nat.digits 256 (beVal 256 bin) = ((h :: t : List Nat)).reverse := by
      rw [hN, htl, leVal_eq_ofDigits]
      exact Nat.digits_ofDigits 256 (by norm_num) _
        (by intro l hl; exact hmem l (List.mem_reverse.mp hl)) hlast
    have hN0 : beVal 256 bin ≠ 0 := by
      intro h0
      rw [h0, Nat.digits_zero] at hdig256
      exact hrevne hdig256.symm
    set ds := Nat.digits 58 (beVal 256 bin) with hds
    have hdsne : ds ≠ [] := Nat.digits_ne_nil_iff_ne_zero.mpr hN0
    have hdslt : ∀ d ∈ ds, d < 58 := fun d hd => Nat.digits_lt_base (by norm_num) hd
    have hdslast : ds.getLast hdsne ≠ 0 := Nat.getLast_digit_ne_zero 58 hN0
    have henc : b58Encode bin =
        List.replicate z '1' ++ ds.reverse.map b58Char := by
      unfold b58Encode
      rw [natDigitsF_eq 58 _ h58, ← hz, ← hds]
    rw [henc]
    unfold b58Decode
    have hallchars : ∀ c ∈ List.replicate z '1' ++ ds.reverse.map b58Char,
        b58Idx c < 58 := by
      intro c hc
      rcases List.mem_append.mp hc with hc | hc
      · rw [List.eq_of_mem_replicate hc]
        decide
      · rcases List.mem_map.mp hc with ⟨d, hd, rfl⟩
        rw [b58Idx_b58Char d (hdslt d (List.mem_reverse.mp hd))]
        exact hdslt d (List.mem_reverse.mp hd)
    rw [if_neg (by simp [hdsne]), if_pos]
    · have hcl : countLeading '1' (List.replicate z '1' ++ ds.reverse.map b58Char) = z := by
        apply countLeading_replicate_append
        intro x hx
        rw [List.head?_map] at hx
        cases hrev : ds.reverse.head? with
        | none => rw [hrev] at hx; simp at hx
        | some d0 =>
          rw [hrev] at hx
          simp only [Option.map_some', Option.some_inj] at hx
          have hd0 : d0 = ds.getLast hdsne := by
            have := List.getLast?_eq_getLast ds hdsne
            rw [← List.head?_reverse] at this
            rw [hrev] at this
            exact Option.some_inj.mp this
          have hd0ne : d0 ≠ 0 := by rw [hd0]; exact hdslast
          have hd0lt : d0 < 58 := by
            apply hdslt
            rw [hd0]
            exact List.getLast_mem hdsne
          rw [← hx]
          exact b58Char_ne_one d0 hd0lt hd0ne
      rw [hcl]
      have hmap : (List.replicate z '1' ++ ds.reverse.map b58Char).map b58Idx =
          List.replicate z 0 ++ ds.reverse := by
        rw [List.map_append, List.map_replicate, b58Idx_one, List.map_map]
        congr 1
        have : ∀ d ∈ ds.reverse, (b58Idx ∘ b58Char) d = id d := by
          intro d hd
          simp only [Function.comp_apply, id_eq]
          exact b58Idx_b58Char d (hdslt d (List.mem_reverse.mp hd))
        rw [List.map_congr_left this, List.map_id]
      rw [hmap]
      have hval : beVal 58 (List.replicate z 0 ++ ds.reverse) = beVal 256 bin := by
        unfold beVal
        rw [List.reverse_append, List.reverse_reverse, List.reverse_replicate,
          leVal_append_zeros, leVal_eq_ofDigits, hds, Nat.ofDigits_digits]
        rfl
      rw [hval, natDigitsF_eq 256 _ h256, hdig256]
      simp only [List.reverse_reverse, Option.some_inj]
      conv_rhs => rw [← hsplit, htl]
    · rw [List.all_eq_true]
      intro c hc
      simpa using hallchars c hc

-- Helper lemmas: the varint encodings of the three known tags.

theorem fromUvarint_ed (raw : List Nat) :
    FromUvarint (PutUvarint MulticodecKindEd25519PubKey ++ raw) =
      .ok (MulticodecKindEd25519PubKey, 2) := rfl

theorem fromUvarint_rsa (raw : List Nat) :
    FromUvarint (PutUvarint MulticodecKindRSAPubKey ++ raw) =
      .ok (MulticodecKindRSAPubKey, 2) := rfl

theorem fromUvarint_secp (raw : List Nat) :
    FromUvarint (PutUvarint MulticodecKindSecp256k1PubKey ++ raw) =
      .ok (MulticodecKindSecp256k1PubKey, 2) := rfl

theorem drop_two_ed (raw : List Nat) :
    (PutUvarint MulticodecKindEd25519PubKey ++ raw).drop 2 = raw := rfl

theorem drop_two_rsa (raw : List Nat) :
    (PutUvarint MulticodecKindRSAPubKey ++ raw).drop 2 = raw := rfl

theorem drop_two_secp (raw : List Nat) :
    (PutUvarint MulticodecKindSecp256k1PubKey ++ raw).drop 2 = raw := rfl

-- Helper lemmas: the stages of Parse.

theorem Parse_not_key_method (E : Externals) (s : List Char)
    (h : KeyPrefix.isPrefixOf s = false) : Parse E s = .error .badPrefix := by
  unfold Parse
  rw [h]
  rfl

theorem Parse_mb_none (E : Externals) (s : List Char)
    (hp : KeyPrefix.isPrefixOf s = true)
    (hm : mbDecode E.otherBase (TrimPrefix s (KeyPrefix ++ [':'])) = none) :
    Parse E s = .error .multibaseDecodeErr := by
  unfold Parse
  rw [hp, hm]
  rfl

theorem Parse_mb_some (E : Externals) (s : List Char) (enc : Nat) (data : List Nat)
    (hp : KeyPrefix.isPrefixOf s = true)
    (hm : mbDecode E.otherBase (TrimPrefix s (KeyPrefix ++ [':'])) = some (enc, data)) :
    Parse E s = if enc ≠ 122 then .error .unsupportedMultibase
      else parseEnvelope E data := by
  unfold Parse
  rw [hp, hm]
  rfl

theorem mbDecode_encode (other : Char → List Char → Option (List Nat))
    (env : List Nat) (hb : ∀ b ∈ env, b < 256) (hne : env ≠ []) :
    mbDecode other (mbEncode env) = some (122, env) := by
  have hstep : mbDecode other ('z' :: b58Encode env) =
      (b58Decode (b58Encode env)).map (fun bs => (('z' : Char).toNat, bs)) := rfl
  show mbDecode other ('z' :: b58Encode env) = some (122, env)
  rw [hstep, b58_decode_encode env hb hne]
  rfl

theorem Parse_did_string (E : Externals) (env : List Nat)
    (hb : ∀ b ∈ env, b < 256) (hne : env ≠ []) :
    Parse E (KeyPrefix ++ ':' :: mbEncode env) = parseEnvelope E env := by
  have hp : KeyPrefix.isPrefixOf (KeyPrefix ++ ':' :: mbEncode env) = true :=
    isPrefixOf_append _ _
  have htrim : TrimPrefix (KeyPrefix ++ ':' :: mbEncode env) (KeyPrefix ++ [':']) =
      mbEncode env := by
    have hsk : KeyPrefix ++ ':' :: mbEncode env =
        (KeyPrefix ++ [':']) ++ mbEncode env := by simp
    rw [hsk, TrimPrefix_append]
  rw [Parse_mb_some E _ 122 env hp (by rw [htrim]; exact mbDecode_encode _ env hb hne)]
  simp

-- Helper lemmas: the envelope stage on each tag.

theorem parseEnvelope_ed (E : Externals) (raw : List Nat) :
    parseEnvelope E (PutUvarint MulticodecKindEd25519PubKey ++ raw) =
      if raw.length = 32 then .ok ⟨⟨.Ed25519, raw, false⟩⟩
      else .error .invalidEd25519Key := by
  unfold parseEnvelope
  rw [fromUvarint_ed]
  dsimp only
  rw [drop_two_ed]
  have hne : MulticodecKindEd25519PubKey ≠ MulticodecKindRSAPubKey := by decide
  rw [if_neg hne, if_pos rfl]
  unfold UnmarshalEd25519PublicKey
  by_cases h : raw.length = 32
  · rw [if_pos h, if_pos h]
  · rw [if_neg h, if_neg h]

theorem parseEnvelope_rsa (E : Externals) (raw : List Nat) :
    parseEnvelope E (PutUvarint MulticodecKindRSAPubKey ++ raw) =
      if E.rsaValid raw then .ok ⟨⟨.RSA, raw, false⟩⟩
      else .error .invalidRsaKey := by
  unfold parseEnvelope
  rw [fromUvarint_rsa]
  dsimp only
  rw [drop_two_rsa, if_pos rfl]
  unfold UnmarshalRsaPublicKey
  by_cases h : E.rsaValid raw
  · rw [if_pos h, if_pos h]
  · rw [if_neg h, if_neg h]

theorem parseEnvelope_secp (E : Externals) (raw : List Nat) :
    parseEnvelope E (PutUvarint MulticodecKindSecp256k1PubKey ++ raw) =
      if raw.length ≠ 33 ∧ raw.length ≠ 65 then .error .invalidSecp256k1KeyLength
      else .ok ⟨⟨.Secp256k1, raw, false⟩⟩ := by
  unfold parseEnvelope
  rw [fromUvarint_secp]
  dsimp only
  rw [drop_two_secp]
  have h1 : MulticodecKindSecp256k1PubKey ≠ MulticodecKindRSAPubKey := by decide
  have h2 : MulticodecKindSecp256k1PubKey ≠ MulticodecKindEd25519PubKey := by decide
  rw [if_neg h1, if_neg h2, if_pos rfl]
  by_cases h : raw.length ≠ 33 ∧ raw.length ≠ 65
  · rw [if_pos h, if_pos h]
  · rw [if_neg h, if_neg h]
    rfl

theorem parseEnvelope_unknown (E : Externals) (data : List Nat) (t n : Nat)
    (hv : FromUvarint data = .ok (t, n))
    (h1 : t ≠ MulticodecKindRSAPubKey)
    (h2 : t ≠ MulticodecKindEd25519PubKey)
    (h3 : t ≠ MulticodecKindSecp256k1PubKey) :
    parseEnvelope E data = .error .unsupportedAlgorithm := by
  unfold parseEnvelope
  rw [hv]
  dsimp only
  rw [if_neg h1, if_neg h2, if_neg h3]

theorem parseEnvelope_varint_err (E : Externals) (data : List Nat) (e : VarintErr)
    (hv : FromUvarint data = .error e) :
    parseEnvelope E data = .error (.varintErr e) := by
  unfold parseEnvelope
  rw [hv]

-- Every result the envelope stage can produce: its errors never repeat
-- the prefix or multibase errors of the earlier stages.

theorem parseEnvelope_ne_early (E : Externals) (data : List Nat) :
    parseEnvelope E data ≠ .error .badPrefix ∧
    parseEnvelope E data ≠ .error .multibaseDecodeErr ∧
    parseEnvelope E data ≠ .error .unsupportedMultibase := by
  unfold parseEnvelope
  cases hFU : FromUvarint data with
  | error e => simp
  | ok p =>
    obtain ⟨t, n⟩ := p
    dsimp only
    by_cases h1 : t = MulticodecKindRSAPubKey
    · rw [if_pos h1]
      cases hU : UnmarshalRsaPublicKey E.rsaValid (data.drop n) <;> simp
    · rw [if_neg h1]
      by_cases h2 : t = MulticodecKindEd25519PubKey
      · rw [if_pos h2]
        cases hU : UnmarshalEd25519PublicKey (data.drop n) <;> simp
      · rw [if_neg h2]
        by_cases h3 : t = MulticodecKindSecp256k1PubKey
        · rw [if_pos h3]
          by_cases h4 : (data.drop n).length ≠ 33 ∧ (data.drop n).length ≠ 65
          · rw [if_pos h4]
            simp
          · rw [if_neg h4]
            cases hU : UnmarshalSecp256k1PublicKey (data.drop n) <;> simp
        · rw [if_neg h3]
          simp

theorem parseEnvelope_ok_shape (E : Externals) (data : List Nat) (id : DIDKey)
    (h : parseEnvelope E data = .ok id) :
    id.pubKey.rawErr = false ∧ id.pubKey.type ≠ .ECDSA ∧
      shapeOK E id.pubKey.type id.pubKey.raw = true := by
  unfold parseEnvelope at h
  cases hFU : FromUvarint data with
  | error e => rw [hFU] at h; simp at h
  | ok p =>
    obtain ⟨t, n⟩ := p
    rw [hFU] at h
    dsimp only at h
    by_cases h1 : t = MulticodecKindRSAPubKey
    · rw [if_pos h1] at h
      unfold UnmarshalRsaPublicKey at h
      by_cases hr : E.rsaValid (data.drop n)
      · rw [if_pos hr] at h
        simp only [Except.ok.injEq] at h
        subst h
        exact ⟨rfl, by simp, by simpa [shapeOK] using hr⟩
      · rw [if_neg hr] at h
        simp at h
    · rw [if_neg h1] at h
      by_cases h2 : t = MulticodecKindEd25519PubKey
      · rw [if_pos h2] at h
        unfold UnmarshalEd25519PublicKey at h
        by_cases hl : (data.drop n).length = 32
        · rw [if_pos hl] at h
          simp only [Except.ok.injEq] at h
          subst h
          exact ⟨rfl, by simp, by simp [shapeOK, hl]⟩
        · rw [if_neg hl] at h
          simp at h
      · rw [if_neg h2] at h
        by_cases h3 : t = MulticodecKindSecp256k1PubKey
        · rw [if_pos h3] at h
          by_cases h4 : (data.drop n).length ≠ 33 ∧ (data.drop n).length ≠ 65
          · rw [if_pos h4] at h
            simp at h
          · rw [if_neg h4] at h
            unfold UnmarshalSecp256k1PublicKey at h
            simp only [Except.ok.injEq] at h
            subst h
            refine ⟨rfl, by simp, ?_⟩
            simp only [shapeOK]
            rcases Decidable.not_and_iff_or_not.mp h4 with h5 | h5 <;>
              simp [Decidable.not_not.mp h5]
        · rw [if_neg h3] at h
          simp at h

theorem parseEnvelope_secp_tag (E : Externals) (data : List Nat) (n : Nat)
    (hv : FromUvarint data = .ok (MulticodecKindSecp256k1PubKey, n)) :
    parseEnvelope E data =
      if (data.drop n).length ≠ 33 ∧ (data.drop n).length ≠ 65 then
        .error .invalidSecp256k1KeyLength
      else .ok ⟨⟨.Secp256k1, data.drop n, false⟩⟩ := by
  unfold parseEnvelope
  rw [hv]
  dsimp only
  rw [if_neg (by decide), if_neg (by decide), if_pos rfl]
  by_cases h : (data.drop n).length ≠ 33 ∧ (data.drop n).length ≠ 65
  · rw [if_pos h, if_pos h]
  · rw [if_neg h, if_neg h]
    rfl

theorem Parse_ok_envelope (E : Externals) (s : List Char) (id : DIDKey)
    (h : Parse E s = .ok id) : ∃ data, parseEnvelope E data = .ok id := by
  cases hpb : KeyPrefix.isPrefixOf s with
  | false => rw [Parse_not_key_method E s hpb] at h; exact absurd h (by simp)
  | true =>
    cases hm : mbDecode E.otherBase (TrimPrefix s (KeyPrefix ++ [':'])) with
    | none => rw [Parse_mb_none E s hpb hm] at h; exact absurd h (by simp)
    | some p =>
      obtain ⟨enc, data⟩ := p
      rw [Parse_mb_some E s enc data hpb hm] at h
      by_cases henc : enc ≠ 122
      · rw [if_pos henc] at h
        exact absurd h (by simp)
      · rw [if_neg henc] at h
        exact ⟨data, h⟩

theorem char_toNat_injective (c d : Char) (h : c.toNat = d.toNat) : c = d :=
  Char.eq_of_val_eq (UInt32.eq_of_toBitVec_eq (BitVec.eq_of_toNat_eq h))

theorem not_ecdsa_safe (E : Externals) (id : DIDKey)
    (ht : id.pubKey.type ≠ .ECDSA) :
    DIDKey.MulticodecType id ≠ none ∧
      DIDKey.VerifyKey E id ≠ .error .unrecognizedKeyType := by
  obtain ⟨⟨ty, raw, re⟩⟩ := id
  constructor
  · cases ty <;> simp_all [DIDKey.MulticodecType]
  · cases ty with
    | ECDSA => exact absurd rfl ht
    | RSA =>
      unfold DIDKey.VerifyKey PubKey.Raw
      cases re with
      | false =>
        dsimp only
        split <;> first | (split <;> simp) | simp
      | true => simp
    | Ed25519 =>
      unfold DIDKey.VerifyKey PubKey.Raw
      cases re <;> simp
    | Secp256k1 =>
      unfold DIDKey.VerifyKey PubKey.Raw
      cases re with
      | false =>
        dsimp only
        split <;> first | (split <;> simp) | simp
      | true => simp

-- Sample values used by the witnesses.

/-- A 32-zero-byte Ed25519 identifier. -/
def edSampleKey : DIDKey := ⟨⟨.Ed25519, List.replicate 32 0, false⟩⟩

/-- The encoded form of edSampleKey. -/
def edSampleString : List Char :=
  KeyPrefix ++ ':' :: mbEncode (PutUvarint MulticodecKindEd25519PubKey ++ List.replicate 32 0)

/-- A well-prefixed, well-encoded input whose envelope carries the
unknown tag 0x9999. -/
def unknownTagString : List Char :=
  KeyPrefix ++ ':' :: mbEncode (PutUvarint 0x9999 ++ [1])

/-- A well-prefixed, well-encoded Secp256k1 envelope with a 32-byte
remainder (violating the 33-or-65 gate). -/
def secpShortString : List Char :=
  KeyPrefix ++ ':' :: mbEncode (PutUvarint MulticodecKindSecp256k1PubKey ++ List.replicate 32 0)

/-- A well-prefixed, well-encoded Secp256k1 envelope with a 33-byte
remainder. -/
def secpGoodString : List Char :=
  KeyPrefix ++ ':' :: mbEncode (PutUvarint MulticodecKindSecp256k1PubKey ++ List.replicate 33 2)

/-- The algorithm of the identifier obtained by parsing an encoded
string, when encoding and parsing both succeed. -/
def parsedType (E : Externals) (o : Option (List Char)) : Option KeyType :=
  match o with
  | none => none
  | some s =>
    match Parse E s with
    | .ok k => some k.pubKey.type
    | .error _ => none

theorem mbDecode_cons (other : Char → List Char → Option (List Nat)) (c : Char)
    (r : List Char) :
    mbDecode other (c :: r) =
      if c = 'z' then (b58Decode r).map (fun bs => (c.toNat, bs))
      else (other c r).map (fun bs => (c.toNat, bs)) := rfl

-- The claims.

/-- C1: for every identifier whose algorithm is in the closed set
(Ed25519, RSA, Secp256k1) and whose raw key bytes satisfy that
algorithm's shape rule, encoding yields a string and decoding that
string succeeds with an identifier of the same algorithm and the same
raw key bytes: Parse (String id) = id. -/
theorem did_key_round_trip (E : Externals) (id : DIDKey)
    (ht : id.pubKey.type ≠ KeyType.ECDSA)
    (he : id.pubKey.rawErr = false)
    (hs : shapeOK E id.pubKey.type id.pubKey.raw = true)
    (hb : ∀ b ∈ id.pubKey.raw, b < 256) :
    ∃ s, DIDKey.String id = some s ∧ Parse E s = .ok id := by
  obtain ⟨⟨ty, raw, re⟩⟩ := id
  have he2 : re = false := he
  subst he2
  have envb : ∀ t2 : Nat, ∀ b ∈ PutUvarint t2 ++ raw, b < 256 := by
    intro t2 b hbm
    rcases List.mem_append.mp hbm with hmem | hmem
    · exact PutUvarint_lt t2 b hmem
    · exact hb b hmem
  have envne : ∀ t2 : Nat, PutUvarint t2 ++ raw ≠ [] := by
    intro t2 hcon
    exact PutUvarint_ne_nil t2 (List.append_eq_nil.mp hcon).1
  cases ty with
  | ECDSA => exact absurd rfl ht
  | Ed25519 =>
    have hl : raw.length = 32 := by simpa [shapeOK] using hs
    refine ⟨_, rfl, ?_⟩
    rw [Parse_did_string E _ (envb _) (envne _), parseEnvelope_ed, if_pos hl]
  | RSA =>
    have hv : E.rsaValid raw = true := by simpa [shapeOK] using hs
    refine ⟨_, rfl, ?_⟩
    rw [Parse_did_string E _ (envb _) (envne _), parseEnvelope_rsa, if_pos hv]
  | Secp256k1 =>
    have hl : raw.length = 33 ∨ raw.length = 65 := by simpa [shapeOK] using hs
    refine ⟨_, rfl, ?_⟩
    rw [Parse_did_string E _ (envb _) (envne _), parseEnvelope_secp,
      if_neg (by rcases hl with h | h <;> simp [h])]

/-- Witness for C1 at a concrete 32-zero-byte Ed25519 identifier. -/
theorem did_key_round_trip_witness :
    DIDKey.String edSampleKey = some edSampleString ∧
    Parse extDefault edSampleString = .ok edSampleKey := by
  obtain ⟨s, h1, h2⟩ := did_key_round_trip extDefault edSampleKey (by decide) (by decide)
    (by decide) (by decide)
  have h0 : DIDKey.String edSampleKey = some edSampleString := rfl
  rw [h0] at h1
  have hs : edSampleString = s := Option.some_inj.mp h1
  subst hs
  exact ⟨h0, h2⟩

/-- C2 counterexample: an input that starts with "did:key" but lacks the
":" delimiter does not fail with the bad-prefix error (as the claim
requires); the untrimmed string reaches the multibase stage and fails
there. -/
theorem missing_delimiter_not_bad_prefix_cex :
    Parse extDefault ['d', 'i', 'd', ':', 'k', 'e', 'y', 'z'] =
        .error .multibaseDecodeErr ∧
    Parse extDefault ['d', 'i', 'd', ':', 'k', 'e', 'y', 'z'] ≠
        .error .badPrefix := by
  refine ⟨by decide, by decide⟩

/-- C2 (amended): Parse fails with the bad-prefix error exactly when the
input does not start with "did:key"; when the prefix is present — with
or without the ":" delimiter — the bad-prefix error is impossible, the
remainder (trimmed only when the delimiter follows) going to the
multibase stage instead. -/
theorem bad_prefix_exact (E : Externals) (s : List Char) :
    (KeyPrefix.isPrefixOf s = false → Parse E s = .error .badPrefix) ∧
    (KeyPrefix.isPrefixOf s = true → Parse E s ≠ .error .badPrefix) := by
  constructor
  · exact Parse_not_key_method E s
  · intro hp
    cases hm : mbDecode E.otherBase (TrimPrefix s (KeyPrefix ++ [':'])) with
    | none => rw [Parse_mb_none E s hp hm]; simp
    | some p =>
      obtain ⟨enc, data⟩ := p
      rw [Parse_mb_some E s enc data hp hm]
      by_cases henc : enc ≠ 122
      · rw [if_pos henc]; simp
      · rw [if_neg henc]
        exact (parseEnvelope_ne_early E data).1

/-- Witness for the amended C2: a foreign-prefix input fails with the
bad-prefix error, and an input carrying the prefix but no delimiter does
not. -/
theorem bad_prefix_exact_witness :
    Parse extDefault ['e', 'x', 'a', 'm', 'p', 'l', 'e', ':', 'f', 'o', 'o'] =
        .error .badPrefix ∧
    Parse extDefault ['d', 'i', 'd', ':', 'k', 'e', 'y', 'Q'] ≠
        .error .badPrefix :=
  ⟨(bad_prefix_exact extDefault _).1 (by decide),
   (bad_prefix_exact extDefault _).2 (by decide)⟩

/-- C3 counterexample: an input whose selector indicates a known foreign
encoding (base-16) but whose payload is invalid in that encoding fails
with the wrapped multibase-decoding error, not with the
unsupported-multibase error the claim requires for every non-base-58
selector. -/
theorem foreign_selector_invalid_payload_cex :
    Parse extHex ['d', 'i', 'd', ':', 'k', 'e', 'y', ':', 'f', '0'] =
        .error .multibaseDecodeErr ∧
    Parse extHex ['d', 'i', 'd', ':', 'k', 'e', 'y', ':', 'f', '0'] ≠
        .error .unsupportedMultibase := by
  refine ⟨by decide, by decide⟩

/-- C3 (amended): on a well-prefixed input, a non-base-58 selector whose
payload decodes in its own base fails with the unsupported-multibase
error; a non-base-58 selector whose decode fails — and a base-58
selector with invalid base-58 payload — fail with the wrapped
multibase-decoding error. -/
theorem multibase_stage_errors (E : Externals) (s : List Char) (c : Char)
    (r : List Char)
    (hp : KeyPrefix.isPrefixOf s = true)
    (ht : TrimPrefix s (KeyPrefix ++ [':']) = c :: r) :
    (∀ bs, c ≠ 'z' → E.otherBase c r = some bs →
      Parse E s = .error .unsupportedMultibase) ∧
    (c ≠ 'z' → E.otherBase c r = none → Parse E s = .error .multibaseDecodeErr) ∧
    (c = 'z' → b58Decode r = none → Parse E s = .error .multibaseDecodeErr) := by
  refine ⟨?_, ?_, ?_⟩
  · intro bs hc hob
    have hm : mbDecode E.otherBase (TrimPrefix s (KeyPrefix ++ [':'])) =
        some (c.toNat, bs) := by
      rw [ht, mbDecode_cons, if_neg hc, hob]
      rfl
    have hne : c.toNat ≠ 122 := fun h122 => hc (char_toNat_injective c 'z' h122)
    rw [Parse_mb_some E s c.toNat bs hp hm, if_pos hne]
  · intro hc hob
    apply Parse_mb_none E s hp
    rw [ht, mbDecode_cons, if_neg hc, hob]
    rfl
  · intro hc hdec
    apply Parse_mb_none E s hp
    rw [ht, mbDecode_cons, if_pos hc, hdec]
    rfl

/-- Witness for the amended C3 on concrete inputs: base-16 selector with
valid payload, base-16 selector with odd-length payload, and base-58
selector with an out-of-alphabet character. -/
theorem multibase_stage_errors_witness :
    Parse extHex (KeyPrefix ++ [':', 'f', '0', '0']) =
        .error .unsupportedMultibase ∧
    Parse extHex (KeyPrefix ++ [':', 'f', '0']) = .error .multibaseDecodeErr ∧
    Parse extDefault (KeyPrefix ++ [':', 'z', '0']) =
        .error .multibaseDecodeErr :=
  ⟨(multibase_stage_errors extHex _ 'f' ['0', '0'] (by decide) (by decide)).1
      [0] (by decide) (by decide),
   (multibase_stage_errors extHex _ 'f' ['0'] (by decide) (by decide)).2.1
      (by decide) (by decide),
   (multibase_stage_errors extDefault _ 'z' ['0'] (by decide) (by decide)).2.2
      rfl (by decide)⟩

/-- C4: on every well-prefixed, well-encoded input whose envelope varint
decodes to a tag outside the three known tags, Parse fails with the
unsupported-algorithm error. -/
theorem unknown_tag_unsupported_algorithm (E : Externals) (s : List Char)
    (data : List Nat) (t n : Nat)
    (hp : KeyPrefix.isPrefixOf s = true)
    (hm : mbDecode E.otherBase (TrimPrefix s (KeyPrefix ++ [':'])) =
      some (122, data))
    (hv : FromUvarint data = .ok (t, n))
    (h1 : t ≠ 0xed) (h2 : t ≠ 0x1205) (h3 : t ≠ 0x1206) :
    Parse E s = .error .unsupportedAlgorithm := by
  rw [Parse_mb_some E s 122 data hp hm, if_neg (by simp)]
  exact parseEnvelope_unknown E data t n hv h2 h1 h3

/-- Witness for C4 at a concrete envelope carrying the tag 0x9999. -/
theorem unknown_tag_unsupported_algorithm_witness :
    Parse extDefault unknownTagString = .error .unsupportedAlgorithm :=
  unknown_tag_unsupported_algorithm extDefault unknownTagString
    (PutUvarint 0x9999 ++ [1]) 0x9999 3 (by decide) (by decide) (by decide)
    (by decide) (by decide) (by decide)

/-- C5: projecting a Secp256k1 identifier through VerifyKey succeeds
exactly when the raw length is 33 or 65 and fails with the Secp256k1
length error otherwise; the same 33-or-65 gate is applied to the
remainder bytes on the decode path. -/
theorem secp256k1_length_gate (E : Externals) :
    (∀ id : DIDKey, id.pubKey.type = .Secp256k1 → id.pubKey.rawErr = false →
      ((id.pubKey.raw.length = 33 ∨ id.pubKey.raw.length = 65) →
        DIDKey.VerifyKey E id = .ok (.secpRawBytes id.pubKey.raw)) ∧
      (id.pubKey.raw.length ≠ 33 → id.pubKey.raw.length ≠ 65 →
        DIDKey.VerifyKey E id = .error .invalidSecp256k1KeyLength)) ∧
    (∀ (s : List Char) (data : List Nat) (n : Nat),
      KeyPrefix.isPrefixOf s = true →
      mbDecode E.otherBase (TrimPrefix s (KeyPrefix ++ [':'])) = some (122, data) →
      FromUvarint data = .ok (0x1206, n) →
      (((data.drop n).length = 33 ∨ (data.drop n).length = 65) →
        Parse E s = .ok ⟨⟨.Secp256k1, data.drop n, false⟩⟩) ∧
      ((data.drop n).length ≠ 33 → (data.drop n).length ≠ 65 →
        Parse E s = .error .invalidSecp256k1KeyLength)) := by
  constructor
  · intro id hty he
    obtain ⟨⟨ty, raw, re⟩⟩ := id
    have hty2 : ty = KeyType.Secp256k1 := hty
    have he2 : re = false := he
    subst hty2
    subst he2
    have hvk : DIDKey.VerifyKey E ⟨⟨.Secp256k1, raw, false⟩⟩ =
        if raw.length = 65 ∨ raw.length = 33 then .ok (.secpRawBytes raw)
        else .error .invalidSecp256k1KeyLength := rfl
    constructor
    · intro hl
      rw [hvk, if_pos (by tauto)]
    · intro h33 h65
      rw [hvk, if_neg (by tauto)]
  · intro s data n hp hm hv
    have hred : Parse E s =
        if (data.drop n).length ≠ 33 ∧ (data.drop n).length ≠ 65 then
          .error .invalidSecp256k1KeyLength
        else .ok ⟨⟨.Secp256k1, data.drop n, false⟩⟩ := by
      rw [Parse_mb_some E s 122 data hp hm, if_neg (by simp)]
      exact parseEnvelope_secp_tag E data n hv
    constructor
    · intro hl
      rw [hred, if_neg (by tauto)]
    · intro h33 h65
      rw [hred, if_pos ⟨h33, h65⟩]

/-- Witness for C5: the projection at 33- and 32-byte Secp256k1 keys and
the decode path at 33- and 32-byte remainders. -/
theorem secp256k1_length_gate_witness :
    DIDKey.VerifyKey extDefault ⟨⟨.Secp256k1, List.replicate 33 2, false⟩⟩ =
        .ok (.secpRawBytes (List.replicate 33 2)) ∧
    DIDKey.VerifyKey extDefault ⟨⟨.Secp256k1, List.replicate 32 2, false⟩⟩ =
        .error .invalidSecp256k1KeyLength ∧
    Parse extDefault secpGoodString =
        .ok ⟨⟨.Secp256k1, List.replicate 33 2, false⟩⟩ ∧
    Parse extDefault secpShortString = .error .invalidSecp256k1KeyLength := by
  refine ⟨?_, ?_, ?_, ?_⟩
  · exact ((secp256k1_length_gate extDefault).1
      ⟨⟨.Secp256k1, List.replicate 33 2, false⟩⟩ rfl rfl).1 (by decide)
  · exact ((secp256k1_length_gate extDefault).1
      ⟨⟨.Secp256k1, List.replicate 32 2, false⟩⟩ rfl rfl).2 (by decide) (by decide)
  · exact ((secp256k1_length_gate extDefault).2 secpGoodString
      (PutUvarint MulticodecKindSecp256k1PubKey ++ List.replicate 33 2) 2
      (by decide) (by decide) (by decide)).1 (by decide)
  · exact ((secp256k1_length_gate extDefault).2 secpShortString
      (PutUvarint MulticodecKindSecp256k1PubKey ++ List.replicate 32 0) 2
      (by decide) (by decide) (by decide)).2 (by decide) (by decide)

/-- C6: the tag table is the fixed mapping Ed25519 to 0xed, RSA to
0x1205, Secp256k1 to 0x1206, and it round-trips: for each of the three
algorithms, encoding an identifier and running the decode-side tag
dispatch on the result recovers the same algorithm. -/
theorem tag_table_round_trip :
    DIDKey.MulticodecType ⟨⟨.Ed25519, [], false⟩⟩ = some 0xed ∧
    DIDKey.MulticodecType ⟨⟨.RSA, [], false⟩⟩ = some 0x1205 ∧
    DIDKey.MulticodecType ⟨⟨.Secp256k1, [], false⟩⟩ = some 0x1206 ∧
    parsedType extDefault
        (DIDKey.String ⟨⟨.Ed25519, List.replicate 32 0, false⟩⟩) =
      some .Ed25519 ∧
    parsedType extDefault (DIDKey.String ⟨⟨.RSA, [48, 0], false⟩⟩) =
      some .RSA ∧
    parsedType extDefault
        (DIDKey.String ⟨⟨.Secp256k1, List.replicate 33 2, false⟩⟩) =
      some .Secp256k1 := by
  refine ⟨rfl, rfl, rfl, by decide, by decide, by decide⟩

/-- C7 counterexample: NewKeyDID accepts an Ed25519-classified key whose
single raw byte violates the Ed25519 shape rule, so the encode-path
constructor does not validate the shape invariant eagerly. -/
theorem new_key_did_shape_cex :
    NewKeyDID ⟨.Ed25519, [0], false⟩ = .ok ⟨⟨.Ed25519, [0], false⟩⟩ ∧
    shapeOK extDefault KeyType.Ed25519 [0] = false :=
  ⟨rfl, rfl⟩

/-- C7 (amended): the decode path validates eagerly — every identifier
returned by Parse satisfies its algorithm's shape rule — while NewKeyDID
validates only that the algorithm is in the closed set and takes the raw
bytes of the supplied key object as they are. -/
theorem eager_validation_amended :
    (∀ (E : Externals) (s : List Char) (id : DIDKey), Parse E s = .ok id →
      id.pubKey.rawErr = false ∧ shapeOK E id.pubKey.type id.pubKey.raw = true) ∧
    (∀ (pub : PubKey) (id : DIDKey), NewKeyDID pub = .ok id →
      id.pubKey = pub ∧ pub.type ≠ KeyType.ECDSA) := by
  constructor
  · intro E s id h
    obtain ⟨data, hd⟩ := Parse_ok_envelope E s id h
    have hsh := parseEnvelope_ok_shape E data id hd
    exact ⟨hsh.1, hsh.2.2⟩
  · intro pub id h
    cases hty : pub.type with
    | ECDSA =>
      unfold NewKeyDID at h
      rw [hty] at h
      simp at h
    | RSA =>
      unfold NewKeyDID at h
      rw [hty] at h
      simp only [Except.ok.injEq] at h
      subst h
      exact ⟨rfl, by simp [hty]⟩
    | Ed25519 =>
      unfold NewKeyDID at h
      rw [hty] at h
      simp only [Except.ok.injEq] at h
      subst h
      exact ⟨rfl, by simp [hty]⟩
    | Secp256k1 =>
      unfold NewKeyDID at h
      rw [hty] at h
      simp only [Except.ok.injEq] at h
      subst h
      exact ⟨rfl, by simp [hty]⟩

/-- Witness for the amended C7 at a concrete parsed identifier and a
concrete constructed identifier. -/
theorem eager_validation_amended_witness :
    (edSampleKey.pubKey.rawErr = false ∧
      shapeOK extDefault edSampleKey.pubKey.type edSampleKey.pubKey.raw = true) ∧
    ((⟨⟨.RSA, [1], false⟩⟩ : DIDKey).pubKey = ⟨.RSA, [1], false⟩ ∧
      (⟨.RSA, [1], false⟩ : PubKey).type ≠ KeyType.ECDSA) :=
  ⟨eager_validation_amended.1 extDefault edSampleString edSampleKey (by decide),
   eager_validation_amended.2 ⟨.RSA, [1], false⟩ ⟨⟨.RSA, [1], false⟩⟩ rfl⟩

/-- C8: the Ed25519 projection never fails its own shape check: for an
Ed25519 identifier whose raw serialization is available, VerifyKey
returns the raw bytes directly as the Ed25519 public key, whatever their
length. -/
theorem ed25519_projection_total (E : Externals) (id : DIDKey)
    (ht : id.pubKey.type = KeyType.Ed25519) (he : id.pubKey.rawErr = false) :
    DIDKey.VerifyKey E id = .ok (.ed25519PublicKey id.pubKey.raw) := by
  obtain ⟨⟨ty, raw, re⟩⟩ := id
  have ht2 : ty = KeyType.Ed25519 := ht
  have he2 : re = false := he
  subst ht2
  subst he2
  rfl

/-- Witness for C8 at a 3-byte raw key, a length no Ed25519 check would
accept. -/
theorem ed25519_projection_total_witness :
    DIDKey.VerifyKey extDefault ⟨⟨.Ed25519, [1, 2, 3], false⟩⟩ =
      .ok (.ed25519PublicKey [1, 2, 3]) :=
  ed25519_projection_total extDefault ⟨⟨.Ed25519, [1, 2, 3], false⟩⟩ rfl rfl

/-- C9: when the raw serialization of the underlying key fails, String
returns the empty string — not an error and not a did:key-prefixed
string — while every successful encoding is nonempty, so the empty
string is exactly the silent failure signal. -/
theorem string_silent_empty_failure :
    (∀ id : DIDKey, id.pubKey.rawErr = true → DIDKey.String id = some []) ∧
    (∀ id : DIDKey, id.pubKey.rawErr = false → id.pubKey.type ≠ KeyType.ECDSA →
      ∃ s, DIDKey.String id = some s ∧ s ≠ []) := by
  constructor
  · intro id he
    obtain ⟨⟨ty, raw, re⟩⟩ := id
    have he2 : re = true := he
    subst he2
    rfl
  · intro id he ht
    obtain ⟨⟨ty, raw, re⟩⟩ := id
    have he2 : re = false := he
    subst he2
    cases ty with
    | ECDSA => exact absurd rfl ht
    | Ed25519 => exact ⟨_, rfl, by simp [KeyPrefix]⟩
    | RSA => exact ⟨_, rfl, by simp [KeyPrefix]⟩
    | Secp256k1 => exact ⟨_, rfl, by simp [KeyPrefix]⟩

/-- Witness for C9: a raw-failing key encodes to the empty string; the
sample Ed25519 key does not. -/
theorem string_silent_empty_failure_witness :
    DIDKey.String ⟨⟨.ECDSA, [5], true⟩⟩ = some [] ∧
    DIDKey.String edSampleKey ≠ some [] := by
  refine ⟨string_silent_empty_failure.1 ⟨⟨.ECDSA, [5], true⟩⟩ rfl, ?_⟩
  obtain ⟨s, hs1, hs2⟩ := string_silent_empty_failure.2 edSampleKey rfl (by decide)
  rw [hs1]
  simp only [ne_eq, Option.some_inj]
  exact hs2

/-- C10: every identifier obtained from NewKeyDID or Parse has its
algorithm in the closed set, so the panic branch of MulticodecType and
the unrecognized-type branch of VerifyKey are unreachable for such
identifiers. -/
theorem constructed_identifiers_closed :
    (∀ (pub : PubKey) (id : DIDKey), NewKeyDID pub = .ok id →
      (id.pubKey.type = KeyType.Ed25519 ∨ id.pubKey.type = KeyType.RSA ∨
        id.pubKey.type = KeyType.Secp256k1) ∧
      DIDKey.MulticodecType id ≠ none ∧
      ∀ E : Externals, DIDKey.VerifyKey E id ≠ .error .unrecognizedKeyType) ∧
    (∀ (E : Externals) (s : List Char) (id : DIDKey), Parse E s = .ok id →
      (id.pubKey.type = KeyType.Ed25519 ∨ id.pubKey.type = KeyType.RSA ∨
        id.pubKey.type = KeyType.Secp256k1) ∧
      DIDKey.MulticodecType id ≠ none ∧
      ∀ E2 : Externals, DIDKey.VerifyKey E2 id ≠ .error .unrecognizedKeyType) := by
  constructor
  · intro pub id h
    cases hty : pub.type with
    | ECDSA =>
      unfold NewKeyDID at h
      rw [hty] at h
      simp at h
    | RSA =>
      unfold NewKeyDID at h
      rw [hty] at h
      simp only [Except.ok.injEq] at h
      subst h
      exact ⟨Or.inr (Or.inl hty),
        (not_ecdsa_safe extDefault ⟨pub⟩ (by simp [hty])).1,
        fun E => (not_ecdsa_safe E ⟨pub⟩ (by simp [hty])).2⟩
    | Ed25519 =>
      unfold NewKeyDID at h
      rw [hty] at h
      simp only [Except.ok.injEq] at h
      subst h
      exact ⟨Or.inl hty,
        (not_ecdsa_safe extDefault ⟨pub⟩ (by simp [hty])).1,
        fun E => (not_ecdsa_safe E ⟨pub⟩ (by simp [hty])).2⟩
    | Secp256k1 =>
      unfold NewKeyDID at h
      rw [hty] at h
      simp only [Except.ok.injEq] at h
      subst h
      exact ⟨Or.inr (Or.inr hty),
        (not_ecdsa_safe extDefault ⟨pub⟩ (by simp [hty])).1,
        fun E => (not_ecdsa_safe E ⟨pub⟩ (by simp [hty])).2⟩
  · intro E s id h
    obtain ⟨data, hd⟩ := Parse_ok_envelope E s id h
    have htne := (parseEnvelope_ok_shape E data id hd).2.1
    refine ⟨?_, (not_ecdsa_safe extDefault id htne).1,
      fun E2 => (not_ecdsa_safe E2 id htne).2⟩
    cases hty : id.pubKey.type with
    | ECDSA => exact absurd hty htne
    | Ed25519 => exact Or.inl rfl
    | RSA => exact Or.inr (Or.inl rfl)
    | Secp256k1 => exact Or.inr (Or.inr rfl)

/-- Witness for C10 at a concrete constructed identifier. -/
theorem constructed_identifiers_closed_witness :
    (edSampleKey.pubKey.type = KeyType.Ed25519 ∨
      edSampleKey.pubKey.type = KeyType.RSA ∨
      edSampleKey.pubKey.type = KeyType.Secp256k1) ∧
    DIDKey.MulticodecType edSampleKey ≠ none ∧
    DIDKey.VerifyKey extDefault edSampleKey ≠ .error .unrecognizedKeyType :=
  ⟨(constructed_identifiers_closed.1 ⟨.Ed25519, List.replicate 32 0, false⟩
      edSampleKey rfl).1,
   (constructed_identifiers_closed.1 ⟨.Ed25519, List.replicate 32 0, false⟩
      edSampleKey rfl).2.1,
   (constructed_identifiers_closed.1 ⟨.Ed25519, List.replicate 32 0, false⟩
      edSampleKey rfl).2.2 extDefault⟩

end Parsers
